import Mathlib

/-!
# Verification of the federated-inbox signature authentication endpoint

This file gives a shallow embedding, in Lean 4, of `Inbox.post` from
`users/views/identity.py` (the AP inbox endpoint of the takahe repository),
together with the auxiliary behaviour it relies on:

* Python string operations (`str.split`, `str.split("=", 1)`, `str.strip`,
  `str.upper`, whitespace `str.split()`, `"\n".join`) are embedded as
  functions over `List Char`;
* Python `dict` is embedded as an association list with in-place update
  (assignment to an existing key keeps its position, a new key is appended);
* Django's `request.META` dictionary is derived from the raw request headers
  by the WSGI convention (uppercase, `-` replaced by `_`, prefixed with
  `HTTP_`, with `CONTENT_TYPE`/`CONTENT_LENGTH` unprefixed);
* SHA-256 (the hash used for the body digest, computed by the
  `cryptography` library in the source) is implemented concretely,
  following FIPS 180-4;
* base64 encoding/decoding follows RFC 4648 as implemented by Python's
  `base64.b64encode` / `b64decode`;
* the external collaborators that the endpoint calls but whose code lives
  outside this module (`json.loads`, `core.ld.canonicalise`,
  `Identity.by_actor_uri`, `Identity.verify_signature`) are passed in as a
  bundle of functions, so theorems can quantify over their behaviour; a
  Python exception escaping the handler is modelled as `Except.error`.

The theorems at the end of the file settle the frozen claims C1–C10 about
this endpoint.
-/

set_option maxRecDepth 10000

deriving instance DecidableEq for Except

/-- Python strings are sequences of characters; we embed them as `List Char`. -/
abbrev Str := List Char

/-- Python `bytes` are sequences of numbers below 256. -/
abbrev Bytes := List Nat

/-- The characters Python `str.split()` (no argument) treats as whitespace
(ASCII subset, which is all that occurs in HTTP headers). -/
def pyIsSpace (c : Char) : Bool :=
  c = ' ' || c = '\t' || c = '\n' || c = '\r' || c = '\x0b' || c = '\x0c'

/-- Python `str.upper` on ASCII text. -/
def pyUpper (s : Str) : Str := s.map Char.toUpper

/-- Python `str.lower` on ASCII text. -/
def pyLower (s : Str) : Str := s.map Char.toLower

/-- Python `s.split(sep)` for a single-character separator `sep`:
`"".split(",") = [""]`, empty fields are kept. -/
def splitOnChar (c : Char) : Str → List Str
  | [] => [[]]
  | x :: xs =>
    if x = c then [] :: splitOnChar c xs
    else
      match splitOnChar c xs with
      | [] => [[x]]
      | s :: rest => (x :: s) :: rest

/-- Python `s.split(sep, 1)` for a single-character separator, keeping only
the successful case: `none` models the one-element result whose unpacking
into two variables raises `ValueError`. -/
def splitFirst (c : Char) : Str → Option (Str × Str)
  | [] => none
  | x :: xs =>
    if x = c then some ([], xs)
    else (splitFirst c xs).map (fun p => (x :: p.1, p.2))

/-- Python `s.strip(c)` for a single character: remove every leading and
trailing occurrence of `c`. -/
def stripChar (c : Char) (s : Str) : Str :=
  ((s.dropWhile (fun a => a = c)).reverse.dropWhile (fun a => a = c)).reverse

/-- Helper for `pySplitWs`: the accumulator holds the current word reversed. -/
def wordsAux : Str → Str → List Str
  | [], acc => if acc = [] then [] else [acc.reverse]
  | c :: cs, acc =>
    if pyIsSpace c then
      if acc = [] then wordsAux cs [] else acc.reverse :: wordsAux cs []
    else wordsAux cs (c :: acc)

/-- Python `s.split()` with no argument: split on runs of whitespace,
discarding empty fields. -/
def pySplitWs (s : Str) : List Str := wordsAux s []

/-- Python `sep.join(parts)`. -/
def joinWith (sep : Str) : List Str → Str
  | [] => []
  | [x] => x
  | x :: xs => x ++ sep ++ joinWith sep xs

/-- Python `dict` assignment `d[k] = v`: an existing key keeps its position
in iteration order and gets the new value; a new key is appended. -/
def dictSet : List (Str × Str) → Str → Str → List (Str × Str)
  | [], k, v => [(k, v)]
  | (k', v') :: rest, k, v =>
    if k' = k then (k, v) :: rest else (k', v') :: dictSet rest k v

/-- The Python exceptions that can escape the inbox handler, plus the
distinguished outcomes of external collaborators. -/
inductive PyErr where
  /-- `KeyError`: subscripting a `dict` with an absent key. -/
  | keyError
  /-- `ValueError`: unpacking a one-element split into two variables. -/
  | valueError
  /-- `json.JSONDecodeError`: `json.loads` on a body that is not JSON. -/
  | jsonDecodeError
  /-- `Identity.DoesNotExist` (or any resolution failure) raised by
  `Identity.by_actor_uri`. -/
  | doesNotExist
  /-- any other exception raised inside a collaborator. -/
  | otherError
  deriving DecidableEq, Repr

/-- Python `d[k]` on a dict: the value, or a `KeyError`. -/
def dictGet : List (Str × Str) → Str → Except PyErr Str
  | [], _ => .error .keyError
  | (k', v) :: rest, k => if k' = k then .ok v else dictGet rest k

/-- Membership test `k in d` / plain lookup on a dict, as an `Option`. -/
def metaGet : List (Str × Str) → Str → Option Str
  | [], _ => none
  | (k', v) :: rest, k => if k' = k then some v else metaGet rest k

/-- The two HTTP responses the handler can produce: every rejection is the
bare `HttpResponseBadRequest()` (status 400, empty body, identical on every
rejection path), and the success response is the JSON status-OK body. -/
inductive HttpResponse where
  | badRequest
  | okJson
  deriving DecidableEq, Repr

/-- An inbound HTTP request as observed by the server: the method, the path
(`request.path`, query string excluded), the raw query string, the raw
headers as sent, and the body bytes. -/
structure Request where
  method : Str
  path : Str
  query : Str
  headers : List (Str × Str)
  body : Bytes
  deriving DecidableEq, Repr

/-- The request-target including the query string (what the claim about the
request-target pseudo-header calls "the request path including the query
string"). Django exposes it as `request.get_full_path()`; the handler under
verification never reads it. -/
def fullPath (r : Request) : Str :=
  r.path ++ (if r.query = [] then [] else '?' :: r.query)

/-- The `request.META` key for a raw header name, per the WSGI/Django
convention: uppercase, `-` becomes `_`, prefixed `HTTP_`, except that
`Content-Type` and `Content-Length` are stored unprefixed. -/
def djangoMetaKey (name : Str) : Str :=
  let upper := (pyUpper name).map (fun c => if c = '-' then '_' else c)
  if upper = "CONTENT_TYPE".data ∨ upper = "CONTENT_LENGTH".data then upper
  else "HTTP_".data ++ upper

/-- `request.META` built from the raw request headers. -/
def buildMeta (r : Request) : List (Str × Str) :=
  r.headers.foldl (fun m p => dictSet m (djangoMetaKey p.1) p.2) []

/-- A parsed JSON document, to the extent the handler inspects it: it only
ever reads the string value of the `actor` key, so a string-valued mapping
suffices. -/
abbrev Doc := List (Str × Str)

/-- The external collaborators of the handler, passed in as functions so
that theorems can quantify over their behaviour.  `jsonLoads` is Python's
`json.loads` on the raw body; `canonicalise` is `core.ld.canonicalise`;
`byActorUri` is `Identity.by_actor_uri` returning an identity token;
`verify` is `identity.verify_signature(signature_b64, signed_string)`.
Each may raise (`Except.error`). -/
structure Collab where
  jsonLoads : Bytes → Except PyErr Doc
  canonicalise : Doc → Except PyErr Doc
  byActorUri : Str → Except PyErr Nat
  verify : Nat → Str → Str → Except PyErr Bool

/-! ## Base64 (RFC 4648, as in Python `base64.b64encode`/`b64decode`) -/

/-- The standard base64 alphabet. -/
def b64chars : Str :=
  "ABCDEFGHIJKLMNOPQRSTUVWXYZabcdefghijklmnopqrstuvwxyz0123456789+/".data

/-- The base64 character for a six-bit value. -/
def b64charOf (n : Nat) : Char := b64chars.getD n 'A'

/-- The six-bit value of a base64 character. -/
def b64valOf (c : Char) : Option Nat := b64chars.findIdx? (fun a => a = c)

/-- Python `base64.b64encode` over bytes, producing the padded text. -/
def b64encode : Bytes → Str
  | [] => []
  | [a] => [b64charOf (a / 4), b64charOf (a % 4 * 16), '=', '=']
  | [a, b] => [b64charOf (a / 4), b64charOf (a % 4 * 16 + b / 16),
               b64charOf (b % 16 * 4), '=']
  | a :: b :: c :: rest =>
    b64charOf (a / 4) :: b64charOf (a % 4 * 16 + b / 16) ::
    b64charOf (b % 16 * 4 + c / 64) :: b64charOf (c % 64) :: b64encode rest

/-- Base64 decoding (strict alphabet), `none` on invalid input: four
characters at a time, with the two padded final-group forms. -/
def b64decode : Str → Option Bytes
  | [] => some []
  | c1 :: c2 :: c3 :: c4 :: rest =>
    if c3 = '=' ∧ c4 = '=' ∧ rest = [] then
      match b64valOf c1, b64valOf c2 with
      | some a, some b => some [a * 4 + b / 16]
      | _, _ => none
    else if c4 = '=' ∧ rest = [] then
      match b64valOf c1, b64valOf c2, b64valOf c3 with
      | some a, some b, some c => some [a * 4 + b / 16, b % 16 * 16 + c / 4]
      | _, _, _ => none
    else
      match b64valOf c1, b64valOf c2, b64valOf c3, b64valOf c4, b64decode rest with
      | some a, some b, some c, some d, some tail =>
        some ((a * 4 + b / 16) :: (b % 16 * 16 + c / 4) :: (c % 4 * 64 + d) :: tail)
      | _, _, _, _, _ => none
  | _ => none

/-! ## SHA-256 (FIPS 180-4), the hash behind `hashes.SHA256()` -/

/-- Truncation to a 32-bit word. -/
def w32 (n : Nat) : Nat := n % 4294967296

/-- Right rotation of a 32-bit word. -/
def rotr (n x : Nat) : Nat := w32 ((x >>> n) ||| (x <<< (32 - n)))

/-- FIPS 180-4 `Ch(x, y, z)`; the complement is within 32 bits. -/
def sha256Ch (x y z : Nat) : Nat := (x &&& y) ^^^ ((x ^^^ 4294967295) &&& z)

/-- FIPS 180-4 `Maj(x, y, z)`. -/
def sha256Maj (x y z : Nat) : Nat := (x &&& y) ^^^ (x &&& z) ^^^ (y &&& z)

/-- FIPS 180-4 `Σ₀`. -/
def bigSigma0 (x : Nat) : Nat := rotr 2 x ^^^ rotr 13 x ^^^ rotr 22 x

/-- FIPS 180-4 `Σ₁`. -/
def bigSigma1 (x : Nat) : Nat := rotr 6 x ^^^ rotr 11 x ^^^ rotr 25 x

/-- FIPS 180-4 `σ₀`. -/
def smallSigma0 (x : Nat) : Nat := rotr 7 x ^^^ rotr 18 x ^^^ (x >>> 3)

/-- FIPS 180-4 `σ₁`. -/
def smallSigma1 (x : Nat) : Nat := rotr 17 x ^^^ rotr 19 x ^^^ (x >>> 10)

/-- The 64 SHA-256 round constants. -/
def sha256K : List Nat :=
  [1116352408, 1899447441, 3049323471, 3921009573, 961987163,
   1508970993, 2453635748, 2870763221, 3624381080, 310598401,
   607225278, 1426881987, 1925078388, 2162078206, 2614888103,
   3248222580, 3835390401, 4022224774, 264347078, 604807628,
   770255983, 1249150122, 1555081692, 1996064986, 2554220882,
   2821834349, 2952996808, 3210313671, 3336571891, 3584528711,
   113926993, 338241895, 666307205, 773529912, 1294757372,
   1396182291, 1695183700, 1986661051, 2177026350, 2456956037,
   2730485921, 2820302411, 3259730800, 3345764771, 3516065817,
   3600352804, 4094571909, 275423344, 430227734, 506948616,
   659060556, 883997877, 958139571, 1322822218, 1537002063,
   1747873779, 1955562222, 2024104815, 2227730452, 2361852424,
   2428436474, 2756734187, 3204031479, 3329325298]

/-- The SHA-256 initial hash value. -/
def sha256H0 : List Nat :=
  [1779033703, 3144134277, 1013904242, 2773480762,
   1359893119, 2600822924, 528734635, 1541459225]

/-- `k` bytes of `n`, big-endian. -/
def beBytes : Nat → Nat → Bytes
  | 0, _ => []
  | k + 1, n => beBytes k (n / 256) ++ [n % 256]

/-- SHA-256 padding: append `0x80`, zeros to 56 mod 64, then the bit length
as 8 big-endian bytes. -/
def sha256pad (msg : Bytes) : Bytes :=
  let L := msg.length
  let z := (56 + 64 - (L + 1) % 64) % 64
  msg ++ 0x80 :: List.replicate z 0 ++ beBytes 8 (8 * L)

/-- Group bytes into big-endian 32-bit words. -/
def toWords : Bytes → List Nat
  | a :: b :: c :: d :: rest =>
    (a * 16777216 + b * 65536 + c * 256 + d) :: toWords rest
  | _ => []

/-- Split a byte string into 64-byte blocks (the fuel argument, instantiated
with the length, makes the recursion structural). -/
def chunkAux : Nat → Bytes → List Bytes
  | 0, _ => []
  | fuel + 1, l => if l = [] then [] else l.take 64 :: chunkAux fuel (l.drop 64)

/-- Split a byte string into 64-byte blocks. -/
def chunk64 (l : Bytes) : List Bytes := chunkAux l.length l

/-- One extension step of the message schedule. -/
def schedStep (w : List Nat) : List Nat :=
  w ++ [w32 (smallSigma1 (w.getD (w.length - 2) 0) + w.getD (w.length - 7) 0 +
             smallSigma0 (w.getD (w.length - 15) 0) + w.getD (w.length - 16) 0)]

/-- Iterate the schedule extension. -/
def sched : Nat → List Nat → List Nat
  | 0, w => w
  | n + 1, w => sched n (schedStep w)

/-- The full 64-word message schedule from the 16 block words. -/
def fullSchedule (ws : List Nat) : List Nat := sched 48 ws

/-- One round of the SHA-256 compression function on the state
`[a, b, c, d, e, f, g, h]`. -/
def compressStep (st : List Nat) (kw : Nat × Nat) : List Nat :=
  match st with
  | [a, b, c, d, e, f, g, h] =>
    let t1 := w32 (h + bigSigma1 e + sha256Ch e f g + kw.1 + kw.2)
    let t2 := w32 (bigSigma0 a + sha256Maj a b c)
    [w32 (t1 + t2), a, b, c, w32 (d + t1), e, f, g]
  | _ => st

/-- Process one 64-byte block. -/
def compressBlock (h : List Nat) (block : Bytes) : List Nat :=
  let ws := fullSchedule (toWords block)
  let st := (sha256K.zip ws).foldl compressStep h
  (h.zip st).map (fun p => w32 (p.1 + p.2))

/-- SHA-256 of a byte string, as a list of 32 bytes. -/
def sha256 (msg : Bytes) : Bytes :=
  let hs := (chunk64 (sha256pad msg)).foldl compressBlock sha256H0
  hs.foldr (fun h acc => beBytes 4 h ++ acc) []

/-! ## The inbox handler, `Inbox.post` (`users/views/identity.py`) -/

/-- The digest string the handler computes for a body:
`"SHA-256=" + base64(sha256(request.body))`. -/
def digestString (body : Bytes) : Str :=
  "SHA-256=".data ++ b64encode (sha256 body)

/-- The body-digest stage (source lines 152–161): only entered when the
`HTTP_DIGEST` key is present in `request.META`; a mismatching value returns
the 400 response, otherwise the handler continues (`none`). -/
def digestStage (meta : List (Str × Str)) (body : Bytes) : Option HttpResponse :=
  match metaGet meta "HTTP_DIGEST".data with
  | none => none
  | some dv => if dv ≠ digestString body then some .badRequest else none

/-- The signature-header parsing loop (source lines 143–147): for each
comma-separated item, split once on the first `=` (unpacking a splitless
item raises `ValueError`), strip surrounding double quotes from the value,
and assign into the `signature_details` dict. -/
def parseItems : List Str → List (Str × Str) → Except PyErr (List (Str × Str))
  | [], d => .ok d
  | item :: rest, d =>
    match splitFirst '=' item with
    | none => .error .valueError
    | some (n, v) => parseItems rest (dictSet d n (stripChar '"' v))

/-- Parse the raw `Signature` header value into the `signature_details`
dict, exactly as the source's `for item in ….split(","):` loop does. -/
def parseLoop (h : Str) : Except PyErr (List (Str × Str)) :=
  parseItems (splitOnChar ',' h) []

/-- The value of one covered header in the signing payload (source lines
165–170): the request-target pseudo-header gets the hard-coded `"post "`
plus `request.path`; `content-type` reads `META["CONTENT_TYPE"]`; any other
name reads `META["HTTP_" + name.upper()]`, raising `KeyError` when absent. -/
def signingValue (meta : List (Str × Str)) (path : Str) (name : Str) :
    Except PyErr Str :=
  if name = "(request-target)".data then .ok ("post ".data ++ path)
  else if name = "content-type".data then dictGet meta "CONTENT_TYPE".data
  else dictGet meta ("HTTP_".data ++ pyUpper name)

/-- The `headers` dict accumulated by the signing-payload loop (source
lines 163–171), one `dictSet` per name in the covered-headers list. -/
def buildHeadersDict (meta : List (Str × Str)) (path : Str) :
    List Str → List (Str × Str) → Except PyErr (List (Str × Str))
  | [], d => .ok d
  | n :: ns, d =>
    match signingValue meta path n with
    | .error e => .error e
    | .ok v => buildHeadersDict meta path ns (dictSet d n v)

/-- The signing payload (source line 172):
`"\n".join(f"{name}: {value}" for name, value in headers.items())`. -/
def buildSigningPayload (meta : List (Str × Str)) (path : Str)
    (names : List Str) : Except PyErr Str :=
  match buildHeadersDict meta path names [] with
  | .error e => .error e
  | .ok d => .ok (joinWith ['\n'] (d.map (fun p => p.1 ++ ": ".data ++ p.2)))

/-- `Inbox.post` (source lines 138–181), step for step: missing `Signature`
header → 400; parse the signature header; unknown algorithm → 400; body
digest check when a `Digest` header is present; build the signing payload;
`json.loads` the body; canonicalise; look the identity up by the document's
`actor`; verify the signature over the payload; 400 on a failed
verification, otherwise the OK response.  An `Except.error` is a Python
exception escaping the handler (the `print` calls are pure logging and are
omitted). -/
def inboxPost (c : Collab) (r : Request) : Except PyErr HttpResponse :=
  let meta := buildMeta r
  match metaGet meta "HTTP_SIGNATURE".data with
  | none => .ok .badRequest
  | some sigH =>
    match parseLoop sigH with
    | .error e => .error e
    | .ok details =>
      match dictGet details "algorithm".data with
      | .error e => .error e
      | .ok alg =>
        if alg ≠ "rsa-sha256".data then .ok .badRequest
        else
          match digestStage meta r.body with
          | some resp => .ok resp
          | none =>
            match dictGet details "headers".data with
            | .error e => .error e
            | .ok hv =>
              match buildSigningPayload meta r.path (pySplitWs hv) with
              | .error e => .error e
              | .ok signedString =>
                match c.jsonLoads r.body with
                | .error e => .error e
                | .ok doc =>
                  match c.canonicalise doc with
                  | .error e => .error e
                  | .ok doc2 =>
                    match dictGet doc2 "actor".data with
                    | .error e => .error e
                    | .ok actorUri =>
                      match c.byActorUri actorUri with
                      | .error e => .error e
                      | .ok ident =>
                        match dictGet details "signature".data with
                        | .error e => .error e
                        | .ok sigValue =>
                          match c.verify ident sigValue signedString with
                          | .error e => .error e
                          | .ok ok =>
                            if ok then .ok .okJson else .ok .badRequest

/-! ## Concrete instances used to exercise the handler -/

/-- Flip bit `i` (little-endian within each byte) of a byte string. -/
def flipBit (b : Bytes) (i : Nat) : Bytes :=
  b.set (i / 8) ((b.getD (i / 8) 0) ^^^ 2 ^ (i % 8))

/-- One `key="value"` item of a signature header. -/
def encodePair (p : Str × Str) : Str := p.1 ++ '=' :: '"' :: (p.2 ++ ['"'])

/-- A collaborator bundle on which every external step succeeds: the body
parses to a document whose canonical form carries an actor URI, the actor
resolves, and the cryptographic verification accepts. -/
def collabOK : Collab where
  jsonLoads := fun _ => .ok [("actor".data, "https://remote.example/a".data)]
  canonicalise := fun d => .ok d
  byActorUri := fun _ => .ok 7
  verify := fun _ _ _ => .ok true

/-- Collaborators where `json.loads` raises, as it does on a body that is
not parseable as JSON. -/
def collabBadJson : Collab :=
  { collabOK with jsonLoads := fun _ => .error .jsonDecodeError }

/-- Collaborators where the actor identifier cannot be resolved and
`Identity.by_actor_uri` raises. -/
def collabNoActor : Collab :=
  { collabOK with byActorUri := fun _ => .error .doesNotExist }

/-- A complete signature header covering `host`. -/
def sigHeaderFull : Str :=
  "keyId=\"k\",algorithm=\"rsa-sha256\",headers=\"host\",signature=\"QUJD\"".data

/-- A request carrying `sigHeaderFull` and the `Host` header it covers. -/
def reqGood : Request where
  method := "POST".data
  path := "/inbox/".data
  query := []
  headers := [("Signature".data, sigHeaderFull),
              ("Host".data, "example.com".data)]
  body := [123, 125]

/-- A signature header with no `algorithm` key. -/
def reqNoAlg : Request :=
  { reqGood with headers :=
      [("Signature".data, "keyId=\"k\",headers=\"host\",signature=\"QUJD\"".data),
       ("Host".data, "example.com".data)] }

/-- A signature header with no `keyId` key. -/
def reqNoKeyId : Request :=
  { reqGood with headers :=
      [("Signature".data, "algorithm=\"rsa-sha256\",headers=\"host\",signature=\"QUJD\"".data),
       ("Host".data, "example.com".data)] }

/-- A signature header with no `headers` key. -/
def reqNoHeaders : Request :=
  { reqGood with headers :=
      [("Signature".data, "keyId=\"k\",algorithm=\"rsa-sha256\",signature=\"QUJD\"".data),
       ("Host".data, "example.com".data)] }

/-- A signature header with no `signature` key. -/
def reqNoSig : Request :=
  { reqGood with headers :=
      [("Signature".data, "keyId=\"k\",algorithm=\"rsa-sha256\",headers=\"host\"".data),
       ("Host".data, "example.com".data)] }

/-- A request whose signature covers `date` while the request carries no
`Date` header. -/
def reqNoDate : Request :=
  { reqGood with headers :=
      [("Signature".data, "keyId=\"k\",algorithm=\"rsa-sha256\",headers=\"date\",signature=\"QUJD\"".data),
       ("Host".data, "example.com".data)] }

/-- A request whose signature covers `user-agent` and which does carry a
`User-Agent` header (stored by the framework under `HTTP_USER_AGENT`). -/
def reqUserAgent : Request :=
  { reqGood with headers :=
      [("Signature".data, "keyId=\"k\",algorithm=\"rsa-sha256\",headers=\"user-agent\",signature=\"QUJD\"".data),
       ("User-Agent".data, "x".data)] }

/-- The request of the worked signing-string example: `POST` to
`/actor/123/inbox/` with `Host: example.com` and
`Date: Wed, 01 Jan 2020 00:00:00 GMT`. -/
def reqExample : Request where
  method := "POST".data
  path := "/actor/123/inbox/".data
  query := []
  headers := [("Host".data, "example.com".data),
              ("Date".data, "Wed, 01 Jan 2020 00:00:00 GMT".data)]
  body := []

/-- A request whose URL carries a query string. -/
def reqQuery : Request :=
  { reqGood with path := "/inbox/".data, query := "a=1".data }

/-- A request with a correct digest header for its one-byte body `[97]`
(the base64 of the SHA-256 of `"a"`). -/
def reqDigest : Request :=
  { reqGood with
    headers :=
      [("Signature".data, sigHeaderFull),
       ("Host".data, "example.com".data),
       ("Digest".data, "SHA-256=ypeBEsobvcr6wjGzmiPcTaeG7/gUfE5yuYB3ha/uSLs=".data)],
    body := [97] }

/-- A request declaring an algorithm other than `rsa-sha256`. -/
def reqBadAlg : Request :=
  { reqGood with headers :=
      [("Signature".data, "keyId=\"k\",algorithm=\"hs2019\",headers=\"host\",signature=\"QUJD\"".data),
       ("Host".data, "example.com".data)] }

/-- A request whose digest header does not match its body. -/
def reqBadDigest : Request :=
  { reqDigest with headers :=
      [("Signature".data, sigHeaderFull),
       ("Host".data, "example.com".data),
       ("Digest".data, "SHA-256=WRONG".data)] }

/-- The covered-header names of the concrete well-formed signature header
used to exercise the parser. -/
def namesWellFormed : List Str := ["(request-target)".data, "host".data]

/-- The parameter set of a concrete well-formed signature header. -/
def pairsWellFormed : List (Str × Str) :=
  [("keyId".data, "https://remote.example/a#main-key".data),
   ("algorithm".data, "rsa-sha256".data),
   ("headers".data, joinWith [' '] namesWellFormed),
   ("signature".data, b64encode [65, 66, 67])]

/-! ## Helper lemmas about the embedded Python string operations -/

theorem splitOnChar_ne_nil (c : Char) (s : Str) : splitOnChar c s ≠ [] := by
  induction s with
  | nil => simp [splitOnChar]
  | cons x xs ih =>
    by_cases hx : x = c
    · simp [splitOnChar, hx]
    · simp only [splitOnChar, if_neg hx]
      cases h : splitOnChar c xs with
      | nil => simp
      | cons a l => simp

theorem splitOnChar_of_not_mem {c : Char} {s : Str} (h : c ∉ s) :
    splitOnChar c s = [s] := by
  induction s with
  | nil => rfl
  | cons x xs ih =>
    have hx : ¬ x = c := fun e => h (e ▸ List.mem_cons_self x xs)
    have ih' := ih (fun m => h (List.mem_cons_of_mem _ m))
    simp [splitOnChar, hx, ih']

theorem splitOnChar_append {c : Char} {s t : Str} (h : c ∉ s) :
    splitOnChar c (s ++ c :: t) = s :: splitOnChar c t := by
  induction s with
  | nil => simp [splitOnChar]
  | cons x xs ih =>
    have hx : ¬ x = c := fun e => h (e ▸ List.mem_cons_self x xs)
    have ih' := ih (fun m => h (List.mem_cons_of_mem _ m))
    simp [splitOnChar, hx, ih']

theorem splitOnChar_joinWith {c : Char} :
    ∀ {xs : List Str}, xs ≠ [] → (∀ x ∈ xs, c ∉ x) →
      splitOnChar c (joinWith [c] xs) = xs
  | [], h, _ => absurd rfl h
  | [x], _, hall => by
    simp only [joinWith]
    exact splitOnChar_of_not_mem (hall x (List.mem_singleton_self x))
  | x :: y :: rest, _, hall => by
    have hx : c ∉ x := hall x (List.mem_cons_self x _)
    have hrest : ∀ z ∈ y :: rest, c ∉ z :=
      fun z hz => hall z (List.mem_cons_of_mem _ hz)
    have ih := @splitOnChar_joinWith c (y :: rest) (by simp) hrest
    calc splitOnChar c (joinWith [c] (x :: y :: rest))
        = splitOnChar c (x ++ c :: joinWith [c] (y :: rest)) := by
          simp [joinWith]
      _ = x :: splitOnChar c (joinWith [c] (y :: rest)) := splitOnChar_append hx
      _ = x :: y :: rest := by rw [ih]

theorem splitFirst_append {c : Char} {k rest : Str} (h : c ∉ k) :
    splitFirst c (k ++ c :: rest) = some (k, rest) := by
  induction k with
  | nil => simp [splitFirst]
  | cons x xs ih =>
    have hx : ¬ x = c := fun e => h (e ▸ List.mem_cons_self x xs)
    have ih' := ih (fun m => h (List.mem_cons_of_mem _ m))
    simp [splitFirst, hx, ih']

theorem dropWhile_of_forall_not {p : Char → Bool} {l : Str}
    (h : ∀ a ∈ l, p a = false) : l.dropWhile p = l := by
  cases l with
  | nil => rfl
  | cons a l => simp [List.dropWhile_cons, h a (List.mem_cons_self a l)]

theorem stripChar_wrap {c : Char} {v : Str} (h : c ∉ v) :
    stripChar c (c :: (v ++ [c])) = v := by
  have hfalse : ∀ a ∈ v, (decide (a = c)) = false := by
    intro a ha
    simp only [decide_eq_false_iff_not]
    exact fun e => h (e ▸ ha)
  cases v with
  | nil => simp [stripChar]
  | cons b v' =>
    have hb : (decide (b = c)) = false := hfalse b (List.mem_cons_self b v')
    have h1 : List.dropWhile (fun a => decide (a = c)) (c :: (b :: v' ++ [c]))
        = b :: (v' ++ [c]) := by
      simp [List.dropWhile_cons, hb]
    have hrev : (b :: (v' ++ [c])).reverse = c :: (v'.reverse ++ [b]) := by
      simp
    have hall : ∀ a ∈ v'.reverse ++ [b], (decide (a = c)) = false := by
      intro a ha
      rcases List.mem_append.mp ha with h1 | h2
      · exact hfalse a (List.mem_cons_of_mem _ (List.mem_reverse.mp h1))
      · rw [List.mem_singleton.mp h2]; exact hb
    have h2 : List.dropWhile (fun a => decide (a = c)) (c :: (v'.reverse ++ [b]))
        = v'.reverse ++ [b] := by
      rw [List.dropWhile_cons]
      simp only [decide_eq_true_eq, if_pos rfl]
      exact dropWhile_of_forall_not hall
    show ((List.dropWhile (fun a => decide (a = c))
      (c :: (b :: v' ++ [c]))).reverse.dropWhile (fun a => decide (a = c))).reverse
      = b :: v'
    rw [h1, hrev, h2]
    simp

theorem wordsAux_chunk {n : Str} (h : ∀ a ∈ n, pyIsSpace a = false) :
    ∀ (s acc : Str), wordsAux (n ++ s) acc = wordsAux s (n.reverse ++ acc) := by
  induction n with
  | nil => intro s acc; simp
  | cons a n' ih =>
    intro s acc
    have ha : pyIsSpace a = false := h a (List.mem_cons_self a n')
    have h' : ∀ b ∈ n', pyIsSpace b = false :=
      fun b hb => h b (List.mem_cons_of_mem _ hb)
    simp only [List.cons_append, wordsAux, ha, Bool.false_eq_true, if_false,
      List.append_eq]
    rw [ih h' s (a :: acc)]
    simp

theorem pySplitWs_joinWith :
    ∀ {names : List Str},
      (∀ n ∈ names, n ≠ [] ∧ ∀ a ∈ n, pyIsSpace a = false) →
      pySplitWs (joinWith [' '] names) = names
  | [], _ => rfl
  | [n], h => by
    obtain ⟨hne, hns⟩ := h n (List.mem_singleton_self n)
    show wordsAux (joinWith [' '] [n]) [] = [n]
    have hj : joinWith [' '] [n] = n ++ [] := by simp [joinWith]
    rw [hj, wordsAux_chunk hns [] []]
    simp [wordsAux, hne]
  | n :: m :: rest, h => by
    obtain ⟨hne, hns⟩ := h n (List.mem_cons_self n _)
    have h' := fun z hz => h z (List.mem_cons_of_mem _ hz)
    have ih := @pySplitWs_joinWith (m :: rest) h'
    show wordsAux (joinWith [' '] (n :: m :: rest)) [] = n :: m :: rest
    have hj : joinWith [' '] (n :: m :: rest) =
        n ++ (' ' :: joinWith [' '] (m :: rest)) := by simp [joinWith]
    rw [hj, wordsAux_chunk hns _ []]
    have hsp : pyIsSpace ' ' = true := rfl
    have hacc : ¬ (n.reverse ++ [] = []) := by simp [hne]
    simp only [wordsAux, hsp, if_true, if_neg hacc]
    simp only [pySplitWs] at ih
    simp [ih]

/-! ## Base64 round-trip -/

theorem b64valOf_b64charOf : ∀ n, n < 64 → b64valOf (b64charOf n) = some n := by
  decide

theorem b64charOf_ne_eq : ∀ n, n < 64 → b64charOf n ≠ '=' := by
  decide

/-- Decoding inverts encoding on genuine byte strings. -/
theorem b64decode_b64encode :
    ∀ {bs : Bytes}, (∀ b ∈ bs, b < 256) → b64decode (b64encode bs) = some bs
  | [], _ => rfl
  | [a], h => by
    have ha : a < 256 := h a (List.mem_singleton_self a)
    have h1 : a / 4 < 64 := by omega
    have h2 : a % 4 * 16 < 64 := by omega
    show b64decode [b64charOf (a / 4), b64charOf (a % 4 * 16), '=', '='] = some [a]
    rw [b64decode]
    rw [if_pos ⟨rfl, rfl, rfl⟩]
    rw [b64valOf_b64charOf _ h1, b64valOf_b64charOf _ h2]
    have e1 : a / 4 * 4 + a % 4 * 16 / 16 = a := by omega
    show some _ = _
    rw [e1]
  | [a, b], h => by
    have ha : a < 256 := h a (List.mem_cons_self a _)
    have hb : b < 256 := h b (List.mem_cons_of_mem _ (List.mem_singleton_self b))
    have h1 : a / 4 < 64 := by omega
    have h2 : a % 4 * 16 + b / 16 < 64 := by omega
    have h3 : b % 16 * 4 < 64 := by omega
    show b64decode [b64charOf (a / 4), b64charOf (a % 4 * 16 + b / 16),
      b64charOf (b % 16 * 4), '='] = some [a, b]
    rw [b64decode]
    rw [if_neg (by
      rintro ⟨h3eq, -, -⟩
      exact b64charOf_ne_eq _ h3 h3eq)]
    rw [if_pos ⟨rfl, rfl⟩]
    rw [b64valOf_b64charOf _ h1, b64valOf_b64charOf _ h2, b64valOf_b64charOf _ h3]
    have e1 : a / 4 * 4 + (a % 4 * 16 + b / 16) / 16 = a := by omega
    have e2 : (a % 4 * 16 + b / 16) % 16 * 16 + b % 16 * 4 / 4 = b := by omega
    show some _ = _
    rw [e1, e2]
  | a :: b :: c :: rest, h => by
    have ha : a < 256 := h a (List.mem_cons_self a _)
    have hb : b < 256 := h b (List.mem_cons_of_mem _ (List.mem_cons_self b _))
    have hc : c < 256 :=
      h c (List.mem_cons_of_mem _ (List.mem_cons_of_mem _ (List.mem_cons_self c _)))
    have hrest : ∀ x ∈ rest, x < 256 := fun x hx =>
      h x (List.mem_cons_of_mem _ (List.mem_cons_of_mem _ (List.mem_cons_of_mem _ hx)))
    have ih := b64decode_b64encode hrest
    have h1 : a / 4 < 64 := by omega
    have h2 : a % 4 * 16 + b / 16 < 64 := by omega
    have h3 : b % 16 * 4 + c / 64 < 64 := by omega
    have h4 : c % 64 < 64 := by omega
    cases rest with
    | nil =>
      show b64decode [b64charOf (a / 4), b64charOf (a % 4 * 16 + b / 16),
        b64charOf (b % 16 * 4 + c / 64), b64charOf (c % 64)] = some [a, b, c]
      rw [b64decode]
      rw [if_neg (by
        rintro ⟨h3eq, -, -⟩
        exact b64charOf_ne_eq _ h3 h3eq)]
      rw [if_neg (by
        rintro ⟨h4eq, -⟩
        exact b64charOf_ne_eq _ h4 h4eq)]
      rw [b64valOf_b64charOf _ h1, b64valOf_b64charOf _ h2,
        b64valOf_b64charOf _ h3, b64valOf_b64charOf _ h4]
      show some _ = _
      have e1 : a / 4 * 4 + (a % 4 * 16 + b / 16) / 16 = a := by omega
      have e2 : (a % 4 * 16 + b / 16) % 16 * 16 + (b % 16 * 4 + c / 64) / 4 = b := by
        omega
      have e3 : (b % 16 * 4 + c / 64) % 4 * 64 + c % 64 = c := by omega
      rw [e1, e2, e3]
    | cons d rest' =>
      have henc : b64encode (a :: b :: c :: d :: rest') =
          b64charOf (a / 4) :: b64charOf (a % 4 * 16 + b / 16) ::
          b64charOf (b % 16 * 4 + c / 64) :: b64charOf (c % 64) ::
          b64encode (d :: rest') := rfl
      have hne : b64encode (d :: rest') ≠ [] := by
        cases rest' with
        | nil => simp [b64encode]
        | cons e rest'' =>
          cases rest'' with
          | nil => simp [b64encode]
          | cons f r => simp [b64encode]
      rw [henc, b64decode]
      rw [if_neg (by
        rintro ⟨h3eq, -, -⟩
        exact b64charOf_ne_eq _ h3 h3eq)]
      rw [if_neg (by
        rintro ⟨-, hnil⟩
        exact hne hnil)]
      rw [b64valOf_b64charOf _ h1, b64valOf_b64charOf _ h2,
        b64valOf_b64charOf _ h3, b64valOf_b64charOf _ h4, ih]
      show some _ = _
      have e1 : a / 4 * 4 + (a % 4 * 16 + b / 16) / 16 = a := by omega
      have e2 : (a % 4 * 16 + b / 16) % 16 * 16 + (b % 16 * 4 + c / 64) / 4 = b := by
        omega
      have e3 : (b % 16 * 4 + c / 64) % 4 * 64 + c % 64 = c := by omega
      rw [e1, e2, e3]

/-! ## Dict lemmas -/

theorem mem_keys_dictSet_iff {d : List (Str × Str)} {k v a} :
    a ∈ (dictSet d k v).map Prod.fst ↔ a = k ∨ a ∈ d.map Prod.fst := by
  induction d with
  | nil => simp [dictSet]
  | cons p rest ih =>
    obtain ⟨k', v'⟩ := p
    by_cases hk : k' = k
    · subst hk
      simp [dictSet, or_comm]
    · simp only [dictSet, if_neg hk, List.map_cons, List.mem_cons, ih]
      tauto

theorem length_dictSet_le (d : List (Str × Str)) (k v : Str) :
    (dictSet d k v).length ≤ d.length + 1 := by
  induction d with
  | nil => simp [dictSet]
  | cons p rest ih =>
    obtain ⟨k', v'⟩ := p
    by_cases hk : k' = k
    · simp [dictSet, hk]
    · simp only [dictSet, if_neg hk, List.length_cons]
      omega

theorem length_dictSet_of_mem {d : List (Str × Str)} {k : Str} (v : Str)
    (h : k ∈ d.map Prod.fst) : (dictSet d k v).length = d.length := by
  induction d with
  | nil => simp at h
  | cons p rest ih =>
    obtain ⟨k', v'⟩ := p
    by_cases hk : k' = k
    · simp [dictSet, hk]
    · have hmem : k ∈ rest.map Prod.fst := by
        rcases List.mem_cons.mp h with h1 | h2
        · exact absurd h1.symm hk
        · exact h2
      simp [dictSet, hk, ih hmem]

theorem nodup_keys_dictSet {d : List (Str × Str)} {k v : Str}
    (h : (d.map Prod.fst).Nodup) : ((dictSet d k v).map Prod.fst).Nodup := by
  induction d with
  | nil => simp [dictSet]
  | cons p rest ih =>
    obtain ⟨k', v'⟩ := p
    simp only [List.map_cons, List.nodup_cons] at h
    by_cases hk : k' = k
    · subst hk
      simpa [dictSet] using h
    · simp only [dictSet, if_neg hk, List.map_cons, List.nodup_cons]
      refine ⟨fun hmem => ?_, ih h.2⟩
      rcases mem_keys_dictSet_iff.mp hmem with h1 | h2
      · exact hk h1
      · exact h.1 h2

theorem dictSet_of_not_mem {d : List (Str × Str)} {k : Str} (v : Str)
    (h : k ∉ d.map Prod.fst) : dictSet d k v = d ++ [(k, v)] := by
  induction d with
  | nil => rfl
  | cons p rest ih =>
    obtain ⟨k', v'⟩ := p
    have hk : ¬ k' = k := by
      intro e
      exact h (by simp [e])
    have hrest : k ∉ rest.map Prod.fst := fun m => h (by simp [m])
    simp [dictSet, hk, ih hrest]

theorem dictGet_of_mem :
    ∀ {d : List (Str × Str)} {k v : Str}, (k, v) ∈ d →
      (d.map Prod.fst).Nodup → dictGet d k = .ok v := by
  intro d
  induction d with
  | nil => intro k v h; simp at h
  | cons p rest ih =>
    intro k v h hnd
    obtain ⟨k', v'⟩ := p
    simp only [List.map_cons, List.nodup_cons] at hnd
    rcases List.mem_cons.mp h with h1 | h2
    · injection h1 with e1 e2
      subst e1
      subst e2
      simp [dictGet]
    · have hk : ¬ k' = k := by
        intro e
        subst e
        exact hnd.1 (List.mem_map_of_mem Prod.fst h2)
      simp [dictGet, hk, ih h2 hnd.2]

theorem foldl_dictSet_fresh :
    ∀ (pairs d : List (Str × Str)),
      ((pairs.map Prod.fst).Nodup) →
      (∀ k ∈ pairs.map Prod.fst, k ∉ d.map Prod.fst) →
      pairs.foldl (fun acc p => dictSet acc p.1 p.2) d = d ++ pairs := by
  intro pairs
  induction pairs with
  | nil => intro d _ _; simp
  | cons p rest ih =>
    intro d hnd hfresh
    obtain ⟨k, v⟩ := p
    simp only [List.map_cons, List.nodup_cons] at hnd
    have hkd : k ∉ d.map Prod.fst := hfresh k (by simp)
    have step : dictSet d k v = d ++ [(k, v)] := dictSet_of_not_mem v hkd
    have hfresh' : ∀ k' ∈ rest.map Prod.fst, k' ∉ (d ++ [(k, v)]).map Prod.fst := by
      intro k' hk'
      simp only [List.map_append, List.mem_append, List.map_cons, List.map_nil,
        List.mem_singleton, not_or]
      refine ⟨hfresh k' (by simp [hk']), ?_⟩
      intro e
      exact hnd.1 (e ▸ hk')
    simp only [List.foldl_cons, step]
    rw [ih (d ++ [(k, v)]) hnd.2 hfresh']
    simp

/-! ## Parsing and signing-dict lemmas -/

theorem parseItems_encodePair :
    ∀ (pairs : List (Str × Str)) (d : List (Str × Str)),
      (∀ p ∈ pairs, '=' ∉ p.1 ∧ '"' ∉ p.2) →
      parseItems (pairs.map encodePair) d =
        .ok (pairs.foldl (fun acc p => dictSet acc p.1 p.2) d) := by
  intro pairs
  induction pairs with
  | nil => intro d _; rfl
  | cons p rest ih =>
    intro d h
    obtain ⟨k, v⟩ := p
    obtain ⟨hk, hv⟩ := h (k, v) (List.mem_cons_self _ _)
    have hsplit : splitFirst '=' (encodePair (k, v)) =
        some (k, '"' :: (v ++ ['"'])) := by
      show splitFirst '=' (k ++ '=' :: ('"' :: (v ++ ['"']))) = _
      exact splitFirst_append hk
    have hstrip : stripChar '"' ('"' :: (v ++ ['"'])) = v := stripChar_wrap hv
    simp only [List.map_cons, parseItems, hsplit, hstrip]
    exact ih (dictSet d k v) (fun q hq => h q (List.mem_cons_of_mem _ hq))

theorem buildHeadersDict_length_le {meta : List (Str × Str)} {path : Str} :
    ∀ {ns : List Str} {d d' : List (Str × Str)},
      buildHeadersDict meta path ns d = .ok d' →
      d'.length ≤ d.length + ns.length := by
  intro ns
  induction ns with
  | nil =>
    intro d d' h
    simp only [buildHeadersDict] at h
    injection h with h
    simp [h]
  | cons n ns ih =>
    intro d d' h
    simp only [buildHeadersDict] at h
    cases hv : signingValue meta path n with
    | error e => rw [hv] at h; exact absurd h (by simp)
    | ok v =>
      rw [hv] at h
      have := ih h
      have hset := length_dictSet_le d n v
      simp only [List.length_cons]
      omega

theorem buildHeadersDict_length_lt {meta : List (Str × Str)} {path : Str} :
    ∀ {ns : List Str} {d d' : List (Str × Str)},
      (¬ ns.Nodup ∨ ∃ n ∈ ns, n ∈ d.map Prod.fst) →
      buildHeadersDict meta path ns d = .ok d' →
      d'.length < d.length + ns.length := by
  intro ns
  induction ns with
  | nil =>
    intro d d' hdup _
    rcases hdup with h1 | ⟨n, hn, -⟩
    · exact absurd List.nodup_nil h1
    · simp at hn
  | cons n ns ih =>
    intro d d' hdup h
    simp only [buildHeadersDict] at h
    cases hv : signingValue meta path n with
    | error e => rw [hv] at h; exact absurd h (by simp)
    | ok v =>
      rw [hv] at h
      have hset_le := length_dictSet_le d n v
      simp only [List.length_cons]
      rcases hdup with h1 | ⟨m, hm, hmem⟩
      · rw [List.nodup_cons] at h1
        push_neg at h1
        by_cases hn : n ∈ ns
        · have : ∃ m ∈ ns, m ∈ (dictSet d n v).map Prod.fst :=
            ⟨n, hn, mem_keys_dictSet_iff.mpr (Or.inl rfl)⟩
          have := ih (Or.inr this) h
          omega
        · have hns : ¬ ns.Nodup := h1 hn
          have := ih (Or.inl hns) h
          omega
      · rcases List.mem_cons.mp hm with he | hm'
        · subst he
          have heq := length_dictSet_of_mem v hmem
          have := buildHeadersDict_length_le h
          omega
        · have : ∃ x ∈ ns, x ∈ (dictSet d n v).map Prod.fst :=
            ⟨m, hm', mem_keys_dictSet_iff.mpr (Or.inr hmem)⟩
          have := ih (Or.inr this) h
          omega

theorem buildHeadersDict_keys_nodup {meta : List (Str × Str)} {path : Str} :
    ∀ {ns : List Str} {d d' : List (Str × Str)},
      (d.map Prod.fst).Nodup →
      buildHeadersDict meta path ns d = .ok d' →
      (d'.map Prod.fst).Nodup := by
  intro ns
  induction ns with
  | nil =>
    intro d d' hnd h
    simp only [buildHeadersDict] at h
    injection h with h
    exact h ▸ hnd
  | cons n ns ih =>
    intro d d' hnd h
    simp only [buildHeadersDict] at h
    cases hv : signingValue meta path n with
    | error e => rw [hv] at h; exact absurd h (by simp)
    | ok v =>
      rw [hv] at h
      exact ih (nodup_keys_dictSet hnd) h

/-! ## The claims -/

/-- C1: the claim states that every rejected request gets the same generic
400 response and that no failure is fatal — in particular a body that is
not parseable as a structured document, and an actor identifier that cannot
be resolved, each yield a rejection response rather than an uncaught crash.
The code refutes the crash-freedom part: on `reqGood` (a fully well-formed
signed request) with a body `json.loads` cannot parse, the
`JSONDecodeError` escapes the handler uncaught, and with an actor that
`Identity.by_actor_uri` cannot resolve, that exception escapes uncaught —
neither path returns the 400 response. -/
theorem claim_C1_crashes_instead_of_rejecting :
    inboxPost collabBadJson reqGood = .error .jsonDecodeError ∧
    inboxPost collabNoActor reqGood = .error .doesNotExist := by
  constructor <;> decide

/-- C2: the claim states that a signature header missing any of `keyId`,
`algorithm`, `headers` or `signature` is rejected with a 400 response
rather than the pipeline crashing or proceeding.  The code refutes it on
every one of the four keys: a missing `algorithm`, `headers` or `signature`
key raises an uncaught `KeyError` (no 400 is produced), and a missing
`keyId` is never noticed at all — the request proceeds all the way to the
success response. -/
theorem claim_C2_missing_keys_crash_or_proceed :
    inboxPost collabOK reqNoAlg = .error .keyError ∧
    inboxPost collabOK reqNoHeaders = .error .keyError ∧
    inboxPost collabOK reqNoSig = .error .keyError ∧
    inboxPost collabOK reqNoKeyId = .ok .okJson := by
  refine ⟨by decide, by decide, by decide, by decide⟩

/-- C4: for method `POST`, path `/actor/123/inbox/`, covered headers
`(request-target)`, `host`, `date`, host `example.com` and date
`Wed, 01 Jan 2020 00:00:00 GMT`, the constructed signing string is exactly
the three `name: value` lines joined by single newlines with no trailing
newline. -/
theorem claim_C4_signing_string_example :
    buildSigningPayload (buildMeta reqExample) reqExample.path
      ["(request-target)".data, "host".data, "date".data] =
    .ok ("(request-target): post /actor/123/inbox/\nhost: example.com\ndate: Wed, 01 Jan 2020 00:00:00 GMT").data := by
  decide

/-- C5: the claim states that every covered header other than the
request-target pseudo-header is looked up case-insensitively (finding any
standard header present on the request, including hyphenated names), and
that an absent header rejects with `MissingSignedHeader` rather than
crashing.  The code refutes both parts: a covered `date` with no `Date`
header on the request raises an uncaught `KeyError` (no 400), and a
covered `user-agent` is not found even though the request carries a
`User-Agent` header — the handler builds the key `HTTP_USER-AGENT` while
the framework stores the header under `HTTP_USER_AGENT`, so the lookup
raises `KeyError`. -/
theorem claim_C5_header_lookup_crashes :
    inboxPost collabOK reqNoDate = .error .keyError ∧
    inboxPost collabOK reqUserAgent = .error .keyError ∧
    buildSigningPayload (buildMeta reqUserAgent) reqUserAgent.path
      ["user-agent".data] = .error .keyError := by
  refine ⟨by decide, by decide, by decide⟩

/-- C3 (counterexample): the claim states that parsing recovers the
parameters of every well-formed signature header, where well-formedness
splits on top-level commas outside quotes.  The header below is well-formed
under that grammar (its `keyId` value `a,b` contains a quoted comma), yet
the handler splits on every comma, so the fragment `b"` has no `=` to split
on and the parse raises `ValueError` instead of recovering `keyId = a,b`. -/
theorem claim_C3_counterexample :
    parseLoop "keyId=\"a,b\",algorithm=\"rsa-sha256\",headers=\"date\",signature=\"QUJD\"".data
      = .error .valueError := by
  decide

/-- C6 (counterexample): the claim states that the request-target line's
value is the lowercased method, a space, and the path including the query
string.  On a request for `/inbox/?a=1` the handler produces the line
`(request-target): post /inbox/` — `request.path` excludes the query — so
the produced value differs from the claimed
`<lowercased method> <path with query>`. -/
theorem claim_C6_counterexample :
    buildSigningPayload (buildMeta reqQuery) reqQuery.path ["(request-target)".data]
      = .ok "(request-target): post /inbox/".data ∧
    pyLower reqQuery.method ++ ' ' :: fullPath reqQuery ≠ "post /inbox/".data := by
  refine ⟨by decide, by decide⟩

/-- C6 (amended): when the covered name is the request-target
pseudo-header, the line's value is the hard-coded `post` — which equals the
lowercased request method, since this handler serves only `POST` — a single
space, and `request.path`, which excludes the query string. -/
theorem claim_C6_amended (meta : List (Str × Str)) (path method : Str)
    (h : method = "POST".data) :
    signingValue meta path "(request-target)".data =
      .ok (pyLower method ++ ' ' :: path) := by
  subst h
  rfl

/-- Witness for the amended C6 at a concrete input. -/
theorem claim_C6_witness :
    signingValue [] "/inbox/".data "(request-target)".data =
      .ok (pyLower "POST".data ++ ' ' :: "/inbox/".data) :=
  claim_C6_amended [] "/inbox/".data "POST".data rfl

/-- C7: a signature header declaring any algorithm other than `rsa-sha256`
is rejected with the 400 response before any key lookup or cryptographic
computation: the conclusion holds for every collaborator bundle `c`
whatsoever — the outcome does not depend on the actor resolver or the
verifier, so neither can have been consulted — and requires nothing of the
request's body, digest header or covered headers, whose processing all sits
later in the handler. -/
theorem claim_C7_unsupported_algorithm_early_reject
    (c : Collab) (r : Request) (sigH : Str)
    (details : List (Str × Str)) (alg : Str)
    (h1 : metaGet (buildMeta r) "HTTP_SIGNATURE".data = some sigH)
    (h2 : parseLoop sigH = .ok details)
    (h3 : dictGet details "algorithm".data = .ok alg)
    (h4 : alg ≠ "rsa-sha256".data) :
    inboxPost c r = .ok .badRequest := by
  simp only [inboxPost, h1, h2, h3]
  rw [if_pos h4]

/-- Witness for C7: the handler rejects `reqBadAlg` (algorithm `hs2019`)
with the 400 response, even under collaborators that would accept
everything. -/
theorem claim_C7_witness :
    inboxPost collabOK reqBadAlg = .ok .badRequest :=
  claim_C7_unsupported_algorithm_early_reject collabOK reqBadAlg
    "keyId=\"k\",algorithm=\"hs2019\",headers=\"host\",signature=\"QUJD\"".data
    [("keyId".data, "k".data), ("algorithm".data, "hs2019".data),
     ("headers".data, "host".data), ("signature".data, "QUJD".data)]
    "hs2019".data (by decide) (by decide) (by decide) (by decide)

/-- C8: the digest check runs only when a digest header is present (its
absence produces no error, first conjunct); when present, the comparison is
byte-exact against `"SHA-256=" ++ base64(sha256(body))` and passes exactly
when the header equals that string (second conjunct); any mismatch rejects
with the 400 response before any further processing — the third conjunct
holds for every collaborator bundle and makes no assumption that the
covered headers can even be resolved or the body parsed, so the rejection
precedes the signing-string construction and the body canonicalization;
the fourth conjunct exercises the claim's single-bit-flip consequence
exhaustively on the concrete body `[97]` whose correct digest the request
asserts: every one of its eight single-bit modifications is rejected (for
an arbitrary body this consequence is the avalanche behaviour of SHA-256
itself, not a property of this handler). -/
theorem claim_C8_digest_check :
    (∀ (meta : List (Str × Str)) (body : Bytes),
      metaGet meta "HTTP_DIGEST".data = none → digestStage meta body = none)
    ∧ (∀ (meta : List (Str × Str)) (body : Bytes) (dv : Str),
      metaGet meta "HTTP_DIGEST".data = some dv →
      (digestStage meta body = none ↔ dv = digestString body))
    ∧ (∀ (c : Collab) (r : Request) (sigH : Str)
        (details : List (Str × Str)) (dv : Str),
      metaGet (buildMeta r) "HTTP_SIGNATURE".data = some sigH →
      parseLoop sigH = .ok details →
      dictGet details "algorithm".data = .ok "rsa-sha256".data →
      metaGet (buildMeta r) "HTTP_DIGEST".data = some dv →
      dv ≠ digestString r.body →
      inboxPost c r = .ok .badRequest)
    ∧ (∀ i, i < 8 →
      inboxPost collabOK { reqDigest with body := flipBit [97] i } =
        .ok .badRequest) := by
  refine ⟨?_, ?_, ?_, ?_⟩
  · intro meta body h
    simp [digestStage, h]
  · intro meta body dv h
    simp only [digestStage, h]
    by_cases he : dv = digestString body
    · simp [he]
    · simp [if_pos he, he]
  · intro c r sigH details dv h1 h2 h3 h4 h5
    simp only [inboxPost, h1, h2, h3]
    rw [if_neg (fun hh => hh rfl)]
    simp only [digestStage, h4]
    rw [if_pos h5]
  · decide

/-- Witness for C8: each hypothesis-bearing conjunct applied at a concrete
input — no digest header passes, the matching digest passes, the
mismatching digest is rejected, and a bit-flipped body is rejected. -/
theorem claim_C8_witness :
    digestStage [] [] = none ∧
    digestStage [("HTTP_DIGEST".data, digestString [97])] [97] = none ∧
    inboxPost collabOK reqBadDigest = .ok .badRequest ∧
    inboxPost collabOK { reqDigest with body := flipBit [97] 0 } =
      .ok .badRequest := by
  obtain ⟨ha, hb, hc, hd⟩ := claim_C8_digest_check
  refine ⟨ha [] [] rfl,
    (hb [("HTTP_DIGEST".data, digestString [97])] [97] (digestString [97])
      rfl).mpr rfl, ?_, hd 0 (by decide)⟩
  exact hc collabOK reqBadDigest sigHeaderFull
    [("keyId".data, "k".data), ("algorithm".data, "rsa-sha256".data),
     ("headers".data, "host".data), ("signature".data, "QUJD".data)]
    "SHA-256=WRONG".data (by decide) (by decide) (by decide) (by decide)
    (by decide)

/-- C9: a request with no digest header whose collaborators succeed — the
body parses, canonicalises to a document with an actor, the actor resolves
and the signature verifies over the signing payload — yields the success
response, for an arbitrary body: nothing below requires any relation
between the body and the signed data, and the second conjunct records that
the signing payload is computed from the headers and path alone, so
replacing the body of a request leaves it unchanged — signature coverage
is strictly limited to the covered headers. -/
theorem claim_C9_body_not_covered :
    (∀ (c : Collab) (r : Request) (sigH hv ss actorUri sigv : Str)
      (details : List (Str × Str)) (doc doc2 : Doc) (ident : Nat),
      metaGet (buildMeta r) "HTTP_SIGNATURE".data = some sigH →
      parseLoop sigH = .ok details →
      dictGet details "algorithm".data = .ok "rsa-sha256".data →
      metaGet (buildMeta r) "HTTP_DIGEST".data = none →
      dictGet details "headers".data = .ok hv →
      buildSigningPayload (buildMeta r) r.path (pySplitWs hv) = .ok ss →
      c.jsonLoads r.body = .ok doc →
      c.canonicalise doc = .ok doc2 →
      dictGet doc2 "actor".data = .ok actorUri →
      c.byActorUri actorUri = .ok ident →
      dictGet details "signature".data = .ok sigv →
      c.verify ident sigv ss = .ok true →
      inboxPost c r = .ok .okJson)
    ∧ (∀ (r : Request) (b : Bytes) (names : List Str),
      buildSigningPayload (buildMeta { r with body := b })
          ({ r with body := b }).path names =
        buildSigningPayload (buildMeta r) r.path names) := by
  constructor
  · intro c r sigH hv ss actorUri sigv details doc doc2 ident
      h1 h2 h3 h4 h5 h6 h7 h8 h9 h10 h11 h12
    simp only [inboxPost, h1, h2, h3]
    rw [if_neg (fun hh => hh rfl)]
    simp only [digestStage, h4, h5, h6, h7, h8, h9, h10, h11, h12]
    rfl
  · intro r b names
    rfl

/-- Witness for C9: the fully successful concrete run — `reqGood` has no
digest header and a body unrelated to its signature, and the handler
returns the success response. -/
theorem claim_C9_witness :
    inboxPost collabOK reqGood = .ok .okJson := by
  obtain ⟨h, -⟩ := claim_C9_body_not_covered
  exact h collabOK reqGood sigHeaderFull "host".data "host: example.com".data
    "https://remote.example/a".data "QUJD".data
    [("keyId".data, "k".data), ("algorithm".data, "rsa-sha256".data),
     ("headers".data, "host".data), ("signature".data, "QUJD".data)]
    [("actor".data, "https://remote.example/a".data)]
    [("actor".data, "https://remote.example/a".data)] 7
    (by decide) (by decide) (by decide) (by decide) (by decide) (by decide)
    (by decide) (by decide) (by decide) (by decide) (by decide) (by decide)

/-- C10: when the covered-headers list names the same header more than
once, the `headers` dict keeps a single entry per name (a later assignment
overwrites the earlier at its original position), so the signing string has
strictly fewer lines than the covered list has entries, each name labels at
most one line, and the sequence of line names cannot reproduce the declared
list verbatim. -/
theorem claim_C10_duplicate_covered_headers
    (meta : List (Str × Str)) (path : Str) (names : List Str)
    (d : List (Str × Str))
    (hdup : ¬ names.Nodup)
    (h : buildHeadersDict meta path names [] = .ok d) :
    d.length < names.length ∧ (d.map Prod.fst).Nodup ∧
      d.map Prod.fst ≠ names := by
  have hlt := buildHeadersDict_length_lt (Or.inl hdup) h
  simp only [List.length_nil, Nat.zero_add] at hlt
  refine ⟨hlt, buildHeadersDict_keys_nodup (by simp) h, ?_⟩
  intro he
  have hlen : (d.map Prod.fst).length = names.length := by rw [he]
  simp only [List.length_map] at hlen
  omega

/-- Witness for C10: covering `date` twice yields a one-line dict against a
two-entry covered list. -/
theorem claim_C10_witness :
    ([("date".data, "D".data)] : List (Str × Str)).length <
        ["date".data, "date".data].length ∧
      (([("date".data, "D".data)] : List (Str × Str)).map Prod.fst).Nodup ∧
      ([("date".data, "D".data)] : List (Str × Str)).map Prod.fst ≠
        ["date".data, "date".data] :=
  claim_C10_duplicate_covered_headers [("HTTP_DATE".data, "D".data)] []
    ["date".data, "date".data] [("date".data, "D".data)]
    (by decide) (by decide)

/-- C3 (amended): for every well-formed signature header whose quoted
values contain no comma and no double quote — the handler splits on every
comma, so a quoted comma breaks it, which is what the counterexample
records — parsing recovers the parameter set exactly: the dict is the
written pairs, the `keyId` and `algorithm` lookups return the written
values, the `headers` lookup returns the space-joined covered list whose
whitespace split restores the written names in order, and the `signature`
lookup returns the written base64 text, whose decoding yields the exact
signature bytes. -/
theorem claim_C3_amended
    (pairs : List (Str × Str)) (kid alg : Str) (names : List Str)
    (sigBytes : Bytes)
    (hwf : ∀ p ∈ pairs, p.1 ≠ [] ∧ '=' ∉ p.1 ∧ ',' ∉ p.1 ∧ '"' ∉ p.1 ∧
      ',' ∉ p.2 ∧ '"' ∉ p.2)
    (hnd : (pairs.map Prod.fst).Nodup)
    (hkid : ("keyId".data, kid) ∈ pairs)
    (halg : ("algorithm".data, alg) ∈ pairs)
    (hhs : ("headers".data, joinWith [' '] names) ∈ pairs)
    (hsig : ("signature".data, b64encode sigBytes) ∈ pairs)
    (hnames : ∀ n ∈ names, n ≠ [] ∧ ∀ a ∈ n, pyIsSpace a = false)
    (hbytes : ∀ b ∈ sigBytes, b < 256) :
    parseLoop (joinWith [','] (pairs.map encodePair)) = .ok pairs ∧
    dictGet pairs "keyId".data = .ok kid ∧
    dictGet pairs "algorithm".data = .ok alg ∧
    dictGet pairs "headers".data = .ok (joinWith [' '] names) ∧
    pySplitWs (joinWith [' '] names) = names ∧
    dictGet pairs "signature".data = .ok (b64encode sigBytes) ∧
    b64decode (b64encode sigBytes) = some sigBytes := by
  have hpairs_ne : pairs ≠ [] := List.ne_nil_of_mem hkid
  have hmap_ne : pairs.map encodePair ≠ [] := by
    intro he
    exact hpairs_ne (List.map_eq_nil_iff.mp he)
  have hitem : ∀ x ∈ pairs.map encodePair, ',' ∉ x := by
    intro x hx hmem
    obtain ⟨p, hp, he⟩ := List.mem_map.mp hx
    obtain ⟨-, -, hkc, -, hvc, -⟩ := hwf p hp
    rw [← he] at hmem
    simp only [encodePair, List.mem_append, List.mem_cons] at hmem
    rcases hmem with h1 | h2 | h3 | h4
    · exact hkc h1
    · exact absurd h2 (by decide)
    · exact absurd h3 (by decide)
    · rcases h4 with h5 | h6 | h7
      · exact hvc h5
      · exact absurd h6 (by decide)
      · simp at h7
  have hsplit : splitOnChar ',' (joinWith [','] (pairs.map encodePair)) =
      pairs.map encodePair := splitOnChar_joinWith hmap_ne hitem
  have hPI := parseItems_encodePair pairs []
    (fun p hp => ⟨(hwf p hp).2.1, (hwf p hp).2.2.2.2.2⟩)
  have hfold := foldl_dictSet_fresh pairs [] hnd (by simp)
  refine ⟨?_, dictGet_of_mem hkid hnd, dictGet_of_mem halg hnd,
    dictGet_of_mem hhs hnd, pySplitWs_joinWith hnames,
    dictGet_of_mem hsig hnd, b64decode_b64encode hbytes⟩
  show parseItems (splitOnChar ',' (joinWith [','] (pairs.map encodePair))) [] =
    .ok pairs
  rw [hsplit, hPI, hfold]
  simp

/-- Witness for the amended C3: the concrete header built from
`pairsWellFormed` parses back to exactly those pairs and the lookups
recover each field. -/
theorem claim_C3_witness :
    parseLoop (joinWith [','] (pairsWellFormed.map encodePair)) =
        .ok pairsWellFormed ∧
      dictGet pairsWellFormed "keyId".data =
        .ok "https://remote.example/a#main-key".data ∧
      dictGet pairsWellFormed "algorithm".data = .ok "rsa-sha256".data ∧
      dictGet pairsWellFormed "headers".data =
        .ok (joinWith [' '] namesWellFormed) ∧
      pySplitWs (joinWith [' '] namesWellFormed) = namesWellFormed ∧
      dictGet pairsWellFormed "signature".data =
        .ok (b64encode [65, 66, 67]) ∧
      b64decode (b64encode [65, 66, 67]) = some [65, 66, 67] :=
  claim_C3_amended pairsWellFormed
    "https://remote.example/a#main-key".data "rsa-sha256".data
    namesWellFormed [65, 66, 67]
    (by decide) (by decide) (by decide) (by decide) (by decide) (by decide)
    (by decide) (by decide)
